import Mathlib

/-!
Verification of the Tenant schema conversion hub
(`api/v1alpha1/conversion_hub.go`): the bidirectional conversion between
the v1alpha1 (legacy, annotation-encoded) and v1beta1 (structured) Tenant
schemas.

Go strings are modelled as lists of characters (`GoStr`); Go
`map[string]string` metadata annotations are modelled as association
lists with map semantics (first-match lookup, in-place overwrite on
insert).  All definitions are executable and mirror the Go source
statement by statement; where Go iterates over a map in unspecified
order and the per-key result is order-independent, a fixed iteration
order is used.
-/

/-- Go strings, modelled as lists of characters. -/
abbrev GoStr : Type := List Char

/-- Metadata annotations: `map[string]string` as an association list. -/
abbrev Annotations : Type := List (GoStr × GoStr)

/-- Map lookup `v, ok := m[k]` (first matching binding). -/
def lookupAnn (a : Annotations) (k : GoStr) : Option GoStr :=
  match a with
  | [] => none
  | (k', v) :: rest => if k' = k then some v else lookupAnn rest k

/-- Map write `m[k] = v`: overwrite the binding of `k` in place, or append it. -/
def insertAnn (a : Annotations) (k v : GoStr) : Annotations :=
  match a with
  | [] => [(k, v)]
  | (k', v') :: rest => if k' = k then (k, v) :: rest else (k', v') :: insertAnn rest k v

/-- Map delete `delete(m, k)`: removes every binding of `k`; no-op when absent. -/
def deleteAnn (a : Annotations) (k : GoStr) : Annotations :=
  match a with
  | [] => []
  | (k', v') :: rest => if k' = k then deleteAnn rest k else (k', v') :: deleteAnn rest k

theorem lookupAnn_insertAnn_self (a : Annotations) (k v : GoStr) :
    lookupAnn (insertAnn a k v) k = some v := by
  induction a with
  | nil => simp [insertAnn, lookupAnn]
  | cons p rest ih =>
    obtain ⟨k', v'⟩ := p
    by_cases h : k' = k
    · simp [insertAnn, lookupAnn, h]
    · simp [insertAnn, lookupAnn, h, ih]

theorem lookupAnn_insertAnn_ne (a : Annotations) (k v : GoStr) (k' : GoStr) (h : k ≠ k') :
    lookupAnn (insertAnn a k v) k' = lookupAnn a k' := by
  induction a with
  | nil => simp [insertAnn, lookupAnn, h]
  | cons p rest ih =>
    obtain ⟨k₀, v₀⟩ := p
    by_cases h₀ : k₀ = k
    · subst h₀
      simp [insertAnn, lookupAnn, h]
    · simp [insertAnn, lookupAnn, h₀, ih]

theorem lookupAnn_deleteAnn_self (a : Annotations) (k : GoStr) :
    lookupAnn (deleteAnn a k) k = none := by
  induction a with
  | nil => simp [deleteAnn, lookupAnn]
  | cons p rest ih =>
    obtain ⟨k₀, v₀⟩ := p
    by_cases h₀ : k₀ = k
    · simp [deleteAnn, h₀, ih]
    · simp [deleteAnn, lookupAnn, h₀, ih]

theorem lookupAnn_deleteAnn_ne (a : Annotations) (k k' : GoStr) (h : k ≠ k') :
    lookupAnn (deleteAnn a k) k' = lookupAnn a k' := by
  induction a with
  | nil => simp [deleteAnn]
  | cons p rest ih =>
    obtain ⟨k₀, v₀⟩ := p
    by_cases h₀ : k₀ = k
    · subst h₀
      simp [deleteAnn, lookupAnn, h, ih]
    · simp [deleteAnn, lookupAnn, h₀, ih]

/-- Go `strings.Split(s, ",")`: `n` commas yield `n + 1` fields; the empty
string yields the single field `[]`. -/
def splitComma : GoStr → List GoStr
  | [] => [[]]
  | c :: rest =>
    if c = ',' then [] :: splitComma rest
    else
      match splitComma rest with
      | [] => [[c]]
      | p :: ps => (c :: p) :: ps

/-- Go `strings.Join(l, ",")`. -/
def joinComma : List GoStr → GoStr
  | [] => []
  | [x] => x
  | x :: xs => x ++ ',' :: joinComma xs

theorem splitComma_ne_nil (s : GoStr) : splitComma s ≠ [] := by
  induction s with
  | nil => simp [splitComma]
  | cons c rest ih =>
    by_cases h : c = ','
    · simp [splitComma, h]
    · simp only [splitComma, h, if_false]
      cases hs : splitComma rest with
      | nil => simp
      | cons p ps => simp

theorem splitComma_commaFree (s : GoStr) (h : ',' ∉ s) : splitComma s = [s] := by
  induction s with
  | nil => rfl
  | cons c rest ih =>
    have hc : c ≠ ',' := fun hc => h (hc ▸ List.mem_cons_self c rest)
    have hr : ',' ∉ rest := fun hr => h (List.mem_cons_of_mem c hr)
    simp [splitComma, hc, ih hr]

theorem splitComma_append (x r : GoStr) (h : ',' ∉ x) :
    splitComma (x ++ ',' :: r) = x :: splitComma r := by
  induction x with
  | nil => simp [splitComma]
  | cons c rest ih =>
    have hc : c ≠ ',' := fun hc => h (hc ▸ List.mem_cons_self c rest)
    have hr : ',' ∉ rest := fun hr => h (List.mem_cons_of_mem c hr)
    simp only [List.cons_append, splitComma, hc, if_false]
    rw [show rest.append (',' :: r) = rest ++ ',' :: r from rfl, ih hr]

/-- Round trip of the comma codec: splitting a joined nonempty list of
comma-free fields recovers the fields exactly. -/
theorem splitComma_joinComma (l : List GoStr) (hne : l ≠ [])
    (hfree : ∀ x ∈ l, ',' ∉ x) : splitComma (joinComma l) = l := by
  induction l with
  | nil => exact absurd rfl hne
  | cons x xs ih =>
    cases xs with
    | nil =>
      have := splitComma_commaFree x (hfree x (List.mem_cons_self x []))
      simpa [joinComma] using this
    | cons y ys =>
      have hx : ',' ∉ x := hfree x (List.mem_cons_self x (y :: ys))
      have hrest : ∀ z ∈ y :: ys, ',' ∉ z := fun z hz =>
        hfree z (List.mem_cons_of_mem x hz)
      have hjoin : joinComma (x :: y :: ys) = x ++ ',' :: joinComma (y :: ys) := rfl
      rw [hjoin, splitComma_append x _ hx, ih (by simp) hrest]

/-!
## Annotation keys

The constant annotation keys of `conversion_hub.go` (the Go constants are
named `...Annotation`; here the suffix is shortened to `...Ann`).
-/

def resourceQuotaScopeAnn : GoStr := "capsule.clastix.io/resource-quota-scope".toList

def podAllowedImagePullPolicyAnn : GoStr := "capsule.clastix.io/allowed-image-pull-policy".toList

def podPriorityAllowedAnn : GoStr := "priorityclass.capsule.clastix.io/allowed".toList

def podPriorityAllowedRegexAnn : GoStr := "priorityclass.capsule.clastix.io/allowed-regex".toList

def enableNodePortsAnn : GoStr := "capsule.clastix.io/enable-node-ports".toList

def enableExternalNameAnn : GoStr := "capsule.clastix.io/enable-external-name".toList

def ownerGroupsAnn : GoStr := "owners.capsule.clastix.io/group".toList

def ownerUsersAnn : GoStr := "owners.capsule.clastix.io/user".toList

def ownerServiceAccountAnn : GoStr := "owners.capsule.clastix.io/serviceaccount".toList

def enableNodeListingAnn : GoStr := "capsule.clastix.io/enable-node-listing".toList

def enableNodeUpdateAnn : GoStr := "capsule.clastix.io/enable-node-update".toList

def enableNodeDeletionAnn : GoStr := "capsule.clastix.io/enable-node-deletion".toList

def enableStorageClassListingAnn : GoStr := "capsule.clastix.io/enable-storageclass-listing".toList

def enableStorageClassUpdateAnn : GoStr := "capsule.clastix.io/enable-storageclass-update".toList

def enableStorageClassDeletionAnn : GoStr := "capsule.clastix.io/enable-storageclass-deletion".toList

def enableIngressClassListingAnn : GoStr := "capsule.clastix.io/enable-ingressclass-listing".toList

def enableIngressClassUpdateAnn : GoStr := "capsule.clastix.io/enable-ingressclass-update".toList

def enableIngressClassDeletionAnn : GoStr := "capsule.clastix.io/enable-ingressclass-deletion".toList

def enablePriorityClassListingAnn : GoStr := "capsule.clastix.io/enable-priorityclass-listing".toList

def enablePriorityClassUpdateAnn : GoStr := "capsule.clastix.io/enable-priorityclass-update".toList

def enablePriorityClassDeletionAnn : GoStr := "capsule.clastix.io/enable-priorityclass-deletion".toList

/-!
## Data model

The v1beta1 type declarations are not part of the packaged source; their
shapes are reconstructed from how `conversion_hub.go` reads and writes
them, and the enum string values (owner kinds, resource-quota scopes) are
modelled from the spec.  Both Go `ProxyServiceKind` and `ProxyOperation`
take only the values used by the conversion tables, so they are modelled
as closed inductives; the two `OwnerKind` string types (v1alpha1 `Kind`,
v1beta1 `OwnerKind`) are kept as plain strings because the conversion
casts them verbatim.
-/

inductive ProxyServiceKind where
  | nodesProxy
  | storageClassesProxy
  | ingressClassesProxy
  | priorityClassesProxy
deriving DecidableEq, Repr

inductive ProxyOperation where
  | listOperation
  | updateOperation
  | deleteOperation
deriving DecidableEq, Repr

/-- Modelled from the spec: the v1beta1 `OwnerKind` literal for users. -/
def userOwner : GoStr := "User".toList

/-- Modelled from the spec: the v1beta1 `OwnerKind` literal for groups. -/
def groupOwner : GoStr := "Group".toList

/-- Modelled from the spec: the v1beta1 `OwnerKind` literal for service accounts. -/
def serviceAccountOwner : GoStr := "ServiceAccount".toList

/-- Modelled from the spec: the resource-quota scope literal `Namespace`. -/
def resourceQuotaScopeNamespace : GoStr := "Namespace".toList

/-- Modelled from the spec: the resource-quota scope literal `Tenant`. -/
def resourceQuotaScopeTenant : GoStr := "Tenant".toList

structure ProxySettings where
  kind : ProxyServiceKind
  operations : List ProxyOperation
deriving DecidableEq, Repr

/-- v1beta1 `OwnerSpec`: kind, name and decoded proxy settings. -/
structure OwnerSpecBeta where
  kind : GoStr
  name : GoStr
  proxyOperations : List ProxySettings
deriving DecidableEq, Repr

/-- v1alpha1 `OwnerSpec` (the single structured primary owner). -/
structure OwnerSpecAlpha where
  kind : GoStr
  name : GoStr
deriving DecidableEq, Repr

/-- The parts of `ObjectMeta` the conversion reads or writes: the object
name (used in parse-error messages) and the annotations map. -/
structure ObjectMeta where
  name : GoStr
  annotations : Annotations
deriving DecidableEq, Repr

structure AdditionalMetadataSpec where
  additionalLabels : List (GoStr × GoStr)
  additionalAnnotations : List (GoStr × GoStr)
deriving DecidableEq, Repr

structure AllowedListSpec where
  exact : List GoStr
  regex : GoStr
deriving DecidableEq, Repr

/-- Opaque policy payloads copied verbatim by the conversion. -/
abbrev NetworkPolicyItem : Type := Unit

abbrev LimitRangeItem : Type := Unit

abbrev ResourceQuotaItem : Type := Unit

structure AdditionalRoleBindingsSpec where
  clusterRoleName : GoStr
  subjects : List GoStr
deriving DecidableEq, Repr

structure ExternalServiceIPsSpec where
  allowed : List GoStr
deriving DecidableEq, Repr

structure TenantStatus where
  size : Int
  namespaces : List GoStr
deriving DecidableEq, Repr

structure TenantAlphaSpec where
  owner : OwnerSpecAlpha
  namespaceQuota : Option Int
  nodeSelector : List (GoStr × GoStr)
  namespacesMetadata : Option AdditionalMetadataSpec
  servicesMetadata : Option AdditionalMetadataSpec
  storageClasses : Option AllowedListSpec
  ingressClasses : Option AllowedListSpec
  ingressHostnames : Option AllowedListSpec
  containerRegistries : Option AllowedListSpec
  networkPolicies : List NetworkPolicyItem
  limitRanges : List LimitRangeItem
  resourceQuota : List ResourceQuotaItem
  additionalRoleBindings : List AdditionalRoleBindingsSpec
  externalServiceIPs : Option ExternalServiceIPsSpec
deriving DecidableEq, Repr

/-- The legacy (v1alpha1) Tenant. -/
structure TenantAlpha where
  meta : ObjectMeta
  spec : TenantAlphaSpec
  status : TenantStatus
deriving DecidableEq, Repr

structure AllowedServices where
  nodePort : Option Bool
  externalName : Option Bool
deriving DecidableEq, Repr

structure ServiceOptions where
  additionalMetadata : Option AdditionalMetadataSpec
  allowedServices : Option AllowedServices
deriving DecidableEq, Repr

structure NetworkPolicySpec where
  items : List NetworkPolicyItem
deriving DecidableEq, Repr

structure LimitRangesSpec where
  items : List LimitRangeItem
deriving DecidableEq, Repr

structure ResourceQuotaSpec where
  scope : GoStr
  items : List ResourceQuotaItem
deriving DecidableEq, Repr

structure TenantBetaSpec where
  owners : List OwnerSpecBeta
  namespaceQuota : Option Int
  nodeSelector : List (GoStr × GoStr)
  namespacesMetadata : Option AdditionalMetadataSpec
  serviceOptions : Option ServiceOptions
  storageClasses : Option AllowedListSpec
  ingressClasses : Option AllowedListSpec
  ingressHostnames : Option AllowedListSpec
  containerRegistries : Option AllowedListSpec
  networkPolicies : Option NetworkPolicySpec
  limitRanges : Option LimitRangesSpec
  resourceQuota : Option ResourceQuotaSpec
  additionalRoleBindings : List AdditionalRoleBindingsSpec
  externalServiceIPs : Option ExternalServiceIPsSpec
  imagePullPolicies : List GoStr
  priorityClasses : Option AllowedListSpec
deriving DecidableEq, Repr

/-- The structured (v1beta1) Tenant. -/
structure TenantBeta where
  meta : ObjectMeta
  spec : TenantBetaSpec
  status : TenantStatus
deriving DecidableEq, Repr

/-!
## Upgrade direction: owner and permission decoding

`convertV1Alpha1OwnerToV1Beta1` (conversion_hub.go lines 48-127).  The Go
code iterates `serviceKindToAnnotationMap` and `annotationToOwnerKindMap`
in unspecified map order; each (owner, service kind) operation list and
each appended owner block is built independently of that order, so the
embedding fixes the source-literal order.
-/

/-- The three `(annotation key, operation)` columns of one proxy service
kind, in the slice order of `serviceKindToAnnotationMap` (listing, update,
deletion), paired with the operation `annotationToOperationMap` assigns to
each key. -/
def kindAnnOps : ProxyServiceKind → List (GoStr × ProxyOperation)
  | .nodesProxy =>
      [(enableNodeListingAnn, .listOperation),
       (enableNodeUpdateAnn, .updateOperation),
       (enableNodeDeletionAnn, .deleteOperation)]
  | .storageClassesProxy =>
      [(enableStorageClassListingAnn, .listOperation),
       (enableStorageClassUpdateAnn, .updateOperation),
       (enableStorageClassDeletionAnn, .deleteOperation)]
  | .ingressClassesProxy =>
      [(enableIngressClassListingAnn, .listOperation),
       (enableIngressClassUpdateAnn, .updateOperation),
       (enableIngressClassDeletionAnn, .deleteOperation)]
  | .priorityClassesProxy =>
      [(enablePriorityClassListingAnn, .listOperation),
       (enablePriorityClassUpdateAnn, .updateOperation),
       (enablePriorityClassDeletionAnn, .deleteOperation)]

/-- The names listed under one annotation key: the comma-split of its value
when the key is present, and no contribution when absent. -/
def annNames (anns : Annotations) (key : GoStr) : List GoStr :=
  match lookupAnn anns key with
  | none => []
  | some v => splitComma v

/-- The operation list `operations[name][serviceKind]` built by the decoding
loop: one `append` per occurrence of `name` in the value of each present
annotation of the service kind (append semantics: duplicate occurrences of
the name yield duplicate operations). -/
def decodedOps (anns : Annotations) (name : GoStr) (k : ProxyServiceKind) :
    List ProxyOperation :=
  (kindAnnOps k).flatMap fun p =>
    ((annNames anns p.1).filter fun m => decide (m = name)).map fun _ => p.2

def allServiceKinds : List ProxyServiceKind :=
  [.nodesProxy, .storageClassesProxy, .ingressClassesProxy, .priorityClassesProxy]

/-- `getProxySettingsForOwner`: one `ProxySettings` entry per service kind
with at least one decoded operation for the owner name (a map entry exists
in `operations[name]` exactly when some operation was appended to it). -/
def getProxySettingsForOwner (anns : Annotations) (name : GoStr) :
    List ProxySettings :=
  allServiceKinds.filterMap fun k =>
    let ops := decodedOps anns name k
    if ops.isEmpty then none else some ⟨k, ops⟩

/-- The owner entries appended for one owner-kind annotation key: one entry
per comma-separated name when the key is present, each entry carrying the
proxy settings decoded for that name. -/
def ownersForKindAnn (anns : Annotations) (key : GoStr) (kind : GoStr) :
    List OwnerSpecBeta :=
  match lookupAnn anns key with
  | none => []
  | some v => (splitComma v).map fun n => ⟨kind, n, getProxySettingsForOwner anns n⟩

/-- `convertV1Alpha1OwnerToV1Beta1`: the primary owner (kind and name cast
verbatim, proxy settings decoded for its name) followed by the owners
decoded from the three owner-kind annotation keys. -/
def convertV1Alpha1OwnerToV1Beta1 (t : TenantAlpha) : List OwnerSpecBeta :=
  ⟨t.spec.owner.kind, t.spec.owner.name,
    getProxySettingsForOwner t.meta.annotations t.spec.owner.name⟩
  :: (ownersForKindAnn t.meta.annotations ownerUsersAnn userOwner
      ++ ownersForKindAnn t.meta.annotations ownerGroupsAnn groupOwner
      ++ ownersForKindAnn t.meta.annotations ownerServiceAccountAnn serviceAccountOwner)

/-!
## Upgrade direction: `ConvertTo` (conversion_hub.go lines 129-308)

Go mutates the destination object in place and returns an error; the
embedding returns the destination state paired with the optional error, so
the partially-assigned destination of a failed conversion is observable.
The destination starts from its zero value, as the conversion machinery
guarantees.
-/

/-- Go `strconv.ParseBool`: exactly the twelve accepted literals. -/
def parseBool (s : GoStr) : Option Bool :=
  if s = "1".toList ∨ s = "t".toList ∨ s = "T".toList ∨
     s = "true".toList ∨ s = "TRUE".toList ∨ s = "True".toList then some true
  else if s = "0".toList ∨ s = "f".toList ∨ s = "F".toList ∨
     s = "false".toList ∨ s = "FALSE".toList ∨ s = "False".toList then some false
  else none

/-- Go `strconv.FormatBool`. -/
def formatBool (b : Bool) : GoStr :=
  if b then "true".toList else "false".toList

/-- The wrapped boolean-annotation parse error: `unable to parse <key>
annotation on tenant <name>`, wrapping the raw value that failed. -/
structure AnnParseError where
  key : GoStr
  tenantName : GoStr
  rawValue : GoStr
deriving DecidableEq, Repr

/-- The nil-guarded update sequence `if dst.Spec.ServiceOptions == nil {...};
if dst.Spec.ServiceOptions.AllowedServices == nil {...}` followed by a field
update of the allowed-services block. -/
def updateAllowedServices (so : Option ServiceOptions)
    (f : AllowedServices → AllowedServices) : Option ServiceOptions :=
  let so' := so.getD ⟨none, none⟩
  let als := so'.allowedServices.getD ⟨none, none⟩
  some { so' with allowedServices := some (f als) }

/-- The 21 keys removed by the `delete` block at the end of a successful
`ConvertTo`, in source order. -/
def consumedKeys : List GoStr :=
  [podAllowedImagePullPolicyAnn, podPriorityAllowedAnn, podPriorityAllowedRegexAnn,
   enableNodePortsAnn, enableExternalNameAnn,
   ownerGroupsAnn, ownerUsersAnn, ownerServiceAccountAnn,
   enableNodeListingAnn, enableNodeUpdateAnn, enableNodeDeletionAnn,
   enableStorageClassListingAnn, enableStorageClassUpdateAnn, enableStorageClassDeletionAnn,
   enableIngressClassListingAnn, enableIngressClassUpdateAnn, enableIngressClassDeletionAnn,
   enablePriorityClassListingAnn, enablePriorityClassUpdateAnn, enablePriorityClassDeletionAnn,
   resourceQuotaScopeAnn]

/-- `// Remove unneeded annotations`: purge the consumed keys from the
destination metadata. -/
def purgeMeta (m : ObjectMeta) : ObjectMeta :=
  ⟨m.name, consumedKeys.foldl deleteAnn m.annotations⟩

/-- All destination spec assignments of `ConvertTo` up to (excluding) the
boolean annotation parsing: direct field copies, owners, the pull-policy,
priority-class and resource-quota-scope annotations. -/
def convertToDirect (t : TenantAlpha) : TenantBetaSpec :=
  let anns := t.meta.annotations
  { owners := convertV1Alpha1OwnerToV1Beta1 t
    namespaceQuota := t.spec.namespaceQuota
    nodeSelector := t.spec.nodeSelector
    namespacesMetadata := t.spec.namespacesMetadata.map fun m =>
      ⟨m.additionalLabels, m.additionalAnnotations⟩
    serviceOptions := match t.spec.servicesMetadata with
      | some m => some ⟨some ⟨m.additionalLabels, m.additionalAnnotations⟩, none⟩
      | none => none
    storageClasses := t.spec.storageClasses.map fun s => ⟨s.exact, s.regex⟩
    ingressClasses := t.spec.ingressClasses.map fun s => ⟨s.exact, s.regex⟩
    ingressHostnames := t.spec.ingressHostnames.map fun s => ⟨s.exact, s.regex⟩
    containerRegistries := t.spec.containerRegistries.map fun s => ⟨s.exact, s.regex⟩
    networkPolicies :=
      if t.spec.networkPolicies.length > 0 then some ⟨t.spec.networkPolicies⟩ else none
    limitRanges :=
      if t.spec.limitRanges.length > 0 then some ⟨t.spec.limitRanges⟩ else none
    resourceQuota :=
      if t.spec.resourceQuota.length > 0 then
        some ⟨(match lookupAnn anns resourceQuotaScopeAnn with
               | some v =>
                 if v = resourceQuotaScopeNamespace then resourceQuotaScopeNamespace
                 else if v = resourceQuotaScopeTenant then resourceQuotaScopeTenant
                 else resourceQuotaScopeTenant
               | none => resourceQuotaScopeTenant),
              t.spec.resourceQuota⟩
      else none
    additionalRoleBindings := t.spec.additionalRoleBindings.map fun rb =>
      ⟨rb.clusterRoleName, rb.subjects⟩
    externalServiceIPs := t.spec.externalServiceIPs.map fun e => ⟨e.allowed⟩
    imagePullPolicies := match lookupAnn anns podAllowedImagePullPolicyAnn with
      | some v => splitComma v
      | none => []
    priorityClasses :=
      let ex := match lookupAnn anns podPriorityAllowedAnn with
        | some v => splitComma v
        | none => []
      let rgx := match lookupAnn anns podPriorityAllowedRegexAnn with
        | some v => v
        | none => []
      if ex.isEmpty && rgx.isEmpty then none else some ⟨ex, rgx⟩ }

/-- The `enable-external-name` annotation step of `ConvertTo`. -/
def convertToExternalName (t : TenantAlpha) (spec : TenantBetaSpec) :
    TenantBetaSpec × Option AnnParseError :=
  match lookupAnn t.meta.annotations enableExternalNameAnn with
  | none => (spec, none)
  | some s =>
    match parseBool s with
    | none => (spec, some ⟨enableExternalNameAnn, t.meta.name, s⟩)
    | some b =>
      let so := updateAllowedServices spec.serviceOptions
        (fun als => { als with externalName := some b })
      ({ spec with serviceOptions := so }, none)

/-- The `enable-node-ports` annotation step of `ConvertTo`, followed on
success by the `enable-external-name` step. -/
def convertToNodePorts (t : TenantAlpha) (spec : TenantBetaSpec) :
    TenantBetaSpec × Option AnnParseError :=
  match lookupAnn t.meta.annotations enableNodePortsAnn with
  | none => convertToExternalName t spec
  | some s =>
    match parseBool s with
    | none => (spec, some ⟨enableNodePortsAnn, t.meta.name, s⟩)
    | some b =>
      let so := updateAllowedServices spec.serviceOptions
        (fun als => { als with nodePort := some b })
      convertToExternalName t { spec with serviceOptions := so }

/-- `ConvertTo` (upgrade): the returned pair is the destination object as Go
leaves it (partially assigned when a boolean annotation fails to parse) and
the returned error.  The status copy and the annotation purge happen only
after both boolean steps succeed, exactly as in the source. -/
def ConvertTo (t : TenantAlpha) : TenantBeta × Option AnnParseError :=
  match convertToNodePorts t (convertToDirect t) with
  | (spec, some e) => (⟨t.meta, spec, ⟨0, []⟩⟩, some e)
  | (spec, none) =>
    (⟨purgeMeta t.meta, spec, ⟨t.status.size, t.status.namespaces⟩⟩, none)

/-!
## Downgrade direction: owner and permission encoding

`convertV1Beta1OwnerToV1Alpha1` (conversion_hub.go lines 310-405).  The Go
loop makes a single pass over `src.Spec.Owners`, appending each owner's
name to the per-key lists of `ownersAnnotations` (index ≥ 1 only, switch
on the owner kind) and `proxyAnnotations` (every index, switch on each
proxy setting's service kind and each operation), then writes each
nonempty list as a comma-joined annotation.  Per key, the appended names
are exactly those collected below, in the same order; the final write
loops run over Go maps whose keys are distinct, so write order is
immaterial and a fixed order is used.
-/

/-- The names appended to `ownersAnnotations[key]` for one owner kind: the
names of the owners at index ≥ 1 whose kind matches, in list order. -/
def tailKindNames (owners : List OwnerSpecBeta) (kindStr : GoStr) : List GoStr :=
  (owners.drop 1).filterMap fun o => if o.kind = kindStr then some o.name else none

/-- The names appended to `proxyAnnotations[key]` for the key of one
`(serviceKind, operation)` pair: one occurrence of `o.name` per matching
operation occurrence in each matching proxy setting of each owner `o`
(every index, including 0), in list order. -/
def encodeNames (owners : List OwnerSpecBeta) (k : ProxyServiceKind)
    (op : ProxyOperation) : List GoStr :=
  owners.flatMap fun o =>
    o.proxyOperations.flatMap fun s =>
      if s.kind = k then
        ((s.operations.filter fun q => decide (q = op)).map fun _ => o.name)
      else []

/-- The permission annotation key of one `(serviceKind, operation)` pair. -/
def permKey : ProxyServiceKind → ProxyOperation → GoStr
  | .nodesProxy, .listOperation => enableNodeListingAnn
  | .nodesProxy, .updateOperation => enableNodeUpdateAnn
  | .nodesProxy, .deleteOperation => enableNodeDeletionAnn
  | .storageClassesProxy, .listOperation => enableStorageClassListingAnn
  | .storageClassesProxy, .updateOperation => enableStorageClassUpdateAnn
  | .storageClassesProxy, .deleteOperation => enableStorageClassDeletionAnn
  | .ingressClassesProxy, .listOperation => enableIngressClassListingAnn
  | .ingressClassesProxy, .updateOperation => enableIngressClassUpdateAnn
  | .ingressClassesProxy, .deleteOperation => enableIngressClassDeletionAnn
  | .priorityClassesProxy, .listOperation => enablePriorityClassListingAnn
  | .priorityClassesProxy, .updateOperation => enablePriorityClassUpdateAnn
  | .priorityClassesProxy, .deleteOperation => enablePriorityClassDeletionAnn

def allOperations : List ProxyOperation :=
  [.listOperation, .updateOperation, .deleteOperation]

/-- The 12 `(key, serviceKind, operation)` triples of the permission
annotation namespace. -/
def permTriples : List (GoStr × ProxyServiceKind × ProxyOperation) :=
  allServiceKinds.flatMap fun k => allOperations.map fun op => (permKey k op, k, op)

/-- `if len(v) > 0 { t.Annotations[k] = strings.Join(v, ",") }`. -/
def writeListAnn (anns : Annotations) (key : GoStr) (names : List GoStr) :
    Annotations :=
  if names.isEmpty then anns else insertAnn anns key (joinComma names)

/-- The final write loops of `convertV1Beta1OwnerToV1Alpha1`, over a list of
`(key, collected names)` pairs. -/
def writeAnns (anns : Annotations) (ws : List (GoStr × List GoStr)) : Annotations :=
  ws.foldl (fun a w => writeListAnn a w.1 w.2) anns

/-- The `(key, collected names)` pairs of the owner-kind annotations. -/
def ownerKindWrites (owners : List OwnerSpecBeta) : List (GoStr × List GoStr) :=
  [(ownerUsersAnn, tailKindNames owners userOwner),
   (ownerGroupsAnn, tailKindNames owners groupOwner),
   (ownerServiceAccountAnn, tailKindNames owners serviceAccountOwner)]

/-- The `(key, collected names)` pairs of the permission annotations. -/
def proxyWrites (owners : List OwnerSpecBeta) : List (GoStr × List GoStr) :=
  permTriples.map fun tr => (tr.1, encodeNames owners tr.2.1 tr.2.2)

/-- `convertV1Beta1OwnerToV1Alpha1`: the structured primary owner taken from
index 0 (the zero value when the owner list is empty, since the loop body
never runs), and the annotation map extended with the nonempty owner-kind
and permission lists. -/
def convertV1Beta1OwnerToV1Alpha1 (owners : List OwnerSpecBeta)
    (anns : Annotations) : OwnerSpecAlpha × Annotations :=
  let primary : OwnerSpecAlpha :=
    match owners.head? with
    | some o => ⟨o.kind, o.name⟩
    | none => ⟨[], []⟩
  (primary, writeAnns anns (ownerKindWrites owners ++ proxyWrites owners))

/-!
## Downgrade direction: `ConvertFrom` (conversion_hub.go lines 407-515)

Go dereferences `src.Spec.ServiceOptions.AllowedServices.NodePort` and
`.ExternalName` without a nil check; a nil pointer there is a runtime
panic, modelled as the `none` result.
-/

/-- The destination spec assignments of `ConvertFrom`: the primary owner from
the owner conversion and the direct field copies. -/
def convertFromSpec (src : TenantBeta) : TenantAlphaSpec :=
  let ownerAnns := convertV1Beta1OwnerToV1Alpha1 src.spec.owners src.meta.annotations
  { owner := ownerAnns.1
    namespaceQuota := src.spec.namespaceQuota
    nodeSelector := src.spec.nodeSelector
    namespacesMetadata := src.spec.namespacesMetadata.map fun m =>
      ⟨m.additionalLabels, m.additionalAnnotations⟩
    servicesMetadata := match src.spec.serviceOptions with
      | some so => so.additionalMetadata.map fun m =>
          ⟨m.additionalLabels, m.additionalAnnotations⟩
      | none => none
    storageClasses := src.spec.storageClasses.map fun s => ⟨s.exact, s.regex⟩
    ingressClasses := src.spec.ingressClasses.map fun s => ⟨s.exact, s.regex⟩
    ingressHostnames := src.spec.ingressHostnames.map fun s => ⟨s.exact, s.regex⟩
    containerRegistries := src.spec.containerRegistries.map fun s => ⟨s.exact, s.regex⟩
    networkPolicies := match src.spec.networkPolicies with
      | some n => n.items
      | none => []
    limitRanges := match src.spec.limitRanges with
      | some l => l.items
      | none => []
    resourceQuota := match src.spec.resourceQuota with
      | some r => r.items
      | none => []
    additionalRoleBindings := src.spec.additionalRoleBindings.map fun rb =>
      ⟨rb.clusterRoleName, rb.subjects⟩
    externalServiceIPs := src.spec.externalServiceIPs.map fun e => ⟨e.allowed⟩ }

/-- `if src.Spec.ResourceQuota != nil { t.Annotations[scope] = string(scope) }`. -/
def scopeAnnStep (anns : Annotations) (rq : Option ResourceQuotaSpec) : Annotations :=
  match rq with
  | some r => insertAnn anns resourceQuotaScopeAnn r.scope
  | none => anns

/-- `if len(src.Spec.ImagePullPolicies) != 0 { ... }`. -/
def pullPolicyAnnStep (anns : Annotations) (policies : List GoStr) : Annotations :=
  if policies.length ≠ 0 then
    insertAnn anns podAllowedImagePullPolicyAnn (joinComma policies)
  else anns

/-- `if src.Spec.PriorityClasses != nil { ... }` (exact and regex written
independently when nonempty). -/
def priorityClassAnnStep (anns : Annotations) (pc : Option AllowedListSpec) :
    Annotations :=
  match pc with
  | some pc =>
    let a := if pc.exact.length ≠ 0 then
        insertAnn anns podPriorityAllowedAnn (joinComma pc.exact)
      else anns
    if pc.regex ≠ [] then insertAnn a podPriorityAllowedRegexAnn pc.regex else a
  | none => anns

/-- The destination annotations of `ConvertFrom` before the two boolean
annotations: metadata copied from the source, then the owner encoding, the
scope, pull-policy and priority-class writes, in source order. -/
def convertFromBaseAnns (src : TenantBeta) : Annotations :=
  priorityClassAnnStep
    (pullPolicyAnnStep
      (scopeAnnStep
        ((convertV1Beta1OwnerToV1Alpha1 src.spec.owners src.meta.annotations).2)
        src.spec.resourceQuota)
      src.spec.imagePullPolicies)
    src.spec.priorityClasses

/-- `ConvertFrom` (downgrade).  `none` models the nil-pointer panic on an
allowed-services block whose optional booleans are unset. -/
def ConvertFrom (src : TenantBeta) : Option TenantAlpha :=
  let status : TenantStatus := ⟨src.status.size, src.status.namespaces⟩
  match src.spec.serviceOptions with
  | some so =>
    match so.allowedServices with
    | some als =>
      match als.nodePort, als.externalName with
      | some np, some en =>
        let anns5 := insertAnn
          (insertAnn (convertFromBaseAnns src) enableNodePortsAnn (formatBool np))
          enableExternalNameAnn (formatBool en)
        some ⟨⟨src.meta.name, anns5⟩, convertFromSpec src, status⟩
      | _, _ => none
    | none => some ⟨⟨src.meta.name, convertFromBaseAnns src⟩, convertFromSpec src, status⟩
  | none => some ⟨⟨src.meta.name, convertFromBaseAnns src⟩, convertFromSpec src, status⟩

/-!
## Decoding and encoding lemmas
-/

/-- An owner's permission set contains a `(serviceKind, operation)` pair. -/
def ownerHasPair (o : OwnerSpecBeta) (k : ProxyServiceKind)
    (op : ProxyOperation) : Prop :=
  ∃ s ∈ o.proxyOperations, s.kind = k ∧ op ∈ s.operations

instance (o : OwnerSpecBeta) (k : ProxyServiceKind) (op : ProxyOperation) :
    Decidable (ownerHasPair o k op) := by
  unfold ownerHasPair
  infer_instance

/-- Occurrence count of an element in a list. -/
def countOcc {α : Type} [DecidableEq α] (x : α) : List α → Nat
  | [] => 0
  | y :: ys => (if y = x then 1 else 0) + countOcc x ys

theorem countOcc_append {α : Type} [DecidableEq α] (x : α) (l m : List α) :
    countOcc x (l ++ m) = countOcc x l + countOcc x m := by
  induction l with
  | nil => simp [countOcc]
  | cons y ys ih => simp [countOcc, ih]; omega

theorem countOcc_replicate {α : Type} [DecidableEq α] (c x : α) (m : Nat) :
    countOcc x (List.replicate m c) = if c = x then m else 0 := by
  induction m with
  | zero => simp [countOcc]
  | succ m ih =>
    simp only [List.replicate, countOcc, ih]
    by_cases h : c = x <;> simp [h] <;> omega

theorem length_filter_eq_countOcc {α : Type} [DecidableEq α] (n : α) (l : List α) :
    (l.filter fun m => decide (m = n)).length = countOcc n l := by
  induction l with
  | nil => simp [countOcc]
  | cons y ys ih =>
    by_cases h : y = n <;> simp [List.filter, countOcc, h, ih] <;> omega

theorem countOcc_pos_iff_mem {α : Type} [DecidableEq α] (x : α) (l : List α) :
    0 < countOcc x l ↔ x ∈ l := by
  induction l with
  | nil => simp [countOcc]
  | cons y ys ih =>
    by_cases h : y = x
    · subst h
      simp [countOcc]
    · simp [countOcc, h, ih, Ne.symm h]

/-- Decoded-operation multiplicity: each operation is recorded once per
occurrence of the owner name in the comma list of the corresponding
permission annotation key. -/
theorem countOcc_decodedOps (anns : Annotations) (n : GoStr)
    (k : ProxyServiceKind) (op : ProxyOperation) :
    countOcc op (decodedOps anns n k) = countOcc n (annNames anns (permKey k op)) := by
  cases k <;> cases op <;>
    simp [decodedOps, kindAnnOps, permKey, countOcc_append, countOcc_replicate,
      length_filter_eq_countOcc, countOcc]

/-- Decoded-operation membership: an operation is attributed to a name for a
service kind exactly when the name occurs in the comma list of the
corresponding permission annotation key. -/
theorem mem_decodedOps (anns : Annotations) (n : GoStr)
    (k : ProxyServiceKind) (op : ProxyOperation) :
    op ∈ decodedOps anns n k ↔ n ∈ annNames anns (permKey k op) := by
  rw [← countOcc_pos_iff_mem, countOcc_decodedOps, countOcc_pos_iff_mem]

/-- The settings produced by `getProxySettingsForOwner` hold a pair exactly
when the decoded operation list for the pair's service kind contains the
operation. -/
theorem ownerHasPair_getProxySettings (anns : Annotations) (kd n : GoStr)
    (k : ProxyServiceKind) (op : ProxyOperation) :
    ownerHasPair ⟨kd, n, getProxySettingsForOwner anns n⟩ k op ↔
      op ∈ decodedOps anns n k := by
  constructor
  · rintro ⟨s, hs, hkind, hop⟩
    simp only [getProxySettingsForOwner, List.mem_filterMap] at hs
    obtain ⟨k', _, hk'⟩ := hs
    by_cases hemp : (decodedOps anns n k').isEmpty
    · rw [if_pos hemp] at hk'
      exact absurd hk' (by simp)
    · rw [if_neg hemp] at hk'
      have hs' := Option.some.inj hk'
      subst hs'
      have hk : k' = k := hkind
      subst hk
      exact hop
  · intro hop
    have hne : ¬ (decodedOps anns n k).isEmpty := by
      intro hemp
      rw [List.isEmpty_iff] at hemp
      rw [hemp] at hop
      exact (List.not_mem_nil op) hop
    refine ⟨⟨k, decodedOps anns n k⟩, ?_, rfl, hop⟩
    simp only [getProxySettingsForOwner, List.mem_filterMap]
    refine ⟨k, ?_, by simp [hne]⟩
    cases k <;> simp [allServiceKinds]

/-- Encoded-name membership: a name is collected for a `(serviceKind,
operation)` key exactly when some owner (any index) with that name holds the
pair. -/
theorem mem_encodeNames (owners : List OwnerSpecBeta) (k : ProxyServiceKind)
    (op : ProxyOperation) (n : GoStr) :
    n ∈ encodeNames owners k op ↔ ∃ o ∈ owners, o.name = n ∧ ownerHasPair o k op := by
  unfold encodeNames ownerHasPair
  rw [List.mem_flatMap]
  constructor
  · rintro ⟨o, ho, hn⟩
    rw [List.mem_flatMap] at hn
    obtain ⟨s, hs, hn⟩ := hn
    by_cases hk : s.kind = k
    · simp only [hk, if_true, List.mem_map, List.mem_filter] at hn
      obtain ⟨q, ⟨hq, hq'⟩, hname⟩ := hn
      exact ⟨o, ho, hname, s, hs, hk, (by simpa using hq' : q = op) ▸ hq⟩
    · simp [hk] at hn
  · rintro ⟨o, ho, hname, s, hs, hk, hop⟩
    refine ⟨o, ho, ?_⟩
    rw [List.mem_flatMap]
    refine ⟨s, hs, ?_⟩
    simp only [hk, if_true, List.mem_map, List.mem_filter]
    exact ⟨op, ⟨hop, by simp⟩, hname⟩

/-- Every collected encoded name is the name of some listed owner. -/
theorem mem_encodeNames_name (owners : List OwnerSpecBeta) (k : ProxyServiceKind)
    (op : ProxyOperation) (n : GoStr) (h : n ∈ encodeNames owners k op) :
    ∃ o ∈ owners, o.name = n := by
  obtain ⟨o, ho, hn, _⟩ := (mem_encodeNames owners k op n).1 h
  exact ⟨o, ho, hn⟩

/-- Membership in the per-kind tail name list. -/
theorem mem_tailKindNames (owners : List OwnerSpecBeta) (ks : GoStr) (n : GoStr) :
    n ∈ tailKindNames owners ks ↔ ∃ o ∈ owners.drop 1, o.kind = ks ∧ o.name = n := by
  unfold tailKindNames
  rw [List.mem_filterMap]
  constructor
  · rintro ⟨o, ho, hn⟩
    by_cases hk : o.kind = ks
    · simp only [hk, if_true, Option.some.injEq] at hn
      exact ⟨o, ho, hk, hn⟩
    · simp [hk] at hn
  · rintro ⟨o, ho, hk, hn⟩
    exact ⟨o, ho, by simp [hk, hn]⟩

/-!
## Lookup lemmas for the encoder's annotation writes
-/

theorem lookupAnn_writeListAnn_ne (anns : Annotations) (key : GoStr)
    (names : List GoStr) (k : GoStr) (h : key ≠ k) :
    lookupAnn (writeListAnn anns key names) k = lookupAnn anns k := by
  unfold writeListAnn
  split
  · rfl
  · exact lookupAnn_insertAnn_ne anns key (joinComma names) k h

theorem lookupAnn_writeAnns_not_mem (ws : List (GoStr × List GoStr))
    (anns : Annotations) (k : GoStr) (h : ∀ w ∈ ws, w.1 ≠ k) :
    lookupAnn (writeAnns anns ws) k = lookupAnn anns k := by
  induction ws generalizing anns with
  | nil => rfl
  | cons w rest ih =>
    have hw : w.1 ≠ k := h w (List.mem_cons_self w rest)
    have hrest : ∀ w' ∈ rest, w'.1 ≠ k := fun w' hw' => h w' (List.mem_cons_of_mem w hw')
    show lookupAnn (writeAnns (writeListAnn anns w.1 w.2) rest) k = lookupAnn anns k
    rw [ih _ hrest, lookupAnn_writeListAnn_ne _ _ _ _ hw]

theorem lookupAnn_writeAnns_mem (ws : List (GoStr × List GoStr))
    (anns : Annotations) (k : GoStr) (names : List GoStr)
    (hnd : (ws.map Prod.fst).Nodup) (hmem : (k, names) ∈ ws) :
    lookupAnn (writeAnns anns ws) k =
      if names.isEmpty then lookupAnn anns k else some (joinComma names) := by
  induction ws generalizing anns with
  | nil => cases hmem
  | cons w rest ih =>
    rw [List.map_cons, List.nodup_cons] at hnd
    obtain ⟨hhead, hndrest⟩ := hnd
    rcases List.mem_cons.1 hmem with heq | htail
    · subst heq
      have hrest : ∀ w' ∈ rest, w'.1 ≠ k := by
        intro w' hw' heq'
        apply hhead
        rw [← heq']
        exact List.mem_map.2 ⟨w', hw', rfl⟩
      show lookupAnn (writeAnns (writeListAnn anns k names) rest) k = _
      rw [lookupAnn_writeAnns_not_mem rest _ k hrest]
      unfold writeListAnn
      split
      · rfl
      · exact lookupAnn_insertAnn_self anns k (joinComma names)
    · have hk : w.1 ≠ k := by
        intro heq'
        apply hhead
        rw [heq']
        exact List.mem_map.2 ⟨(k, names), htail, rfl⟩
      show lookupAnn (writeAnns (writeListAnn anns w.1 w.2) rest) k = _
      rw [ih _ hndrest htail, lookupAnn_writeListAnn_ne _ _ _ _ hk]

/-- The fifteen annotation keys written by the owner/permission encoder, in
write order. -/
def encodeKeys : List GoStr :=
  [ownerUsersAnn, ownerGroupsAnn, ownerServiceAccountAnn,
   enableNodeListingAnn, enableNodeUpdateAnn, enableNodeDeletionAnn,
   enableStorageClassListingAnn, enableStorageClassUpdateAnn, enableStorageClassDeletionAnn,
   enableIngressClassListingAnn, enableIngressClassUpdateAnn, enableIngressClassDeletionAnn,
   enablePriorityClassListingAnn, enablePriorityClassUpdateAnn, enablePriorityClassDeletionAnn]

theorem encode_writes_keys (owners : List OwnerSpecBeta) :
    (ownerKindWrites owners ++ proxyWrites owners).map Prod.fst = encodeKeys := rfl

theorem encodeKeys_nodup : encodeKeys.Nodup := by decide

/-- The permission annotation value after encoding: untouched when no owner
holds the pair, the comma-joined collected names otherwise. -/
theorem lookup_encode_perm (owners : List OwnerSpecBeta) (anns : Annotations)
    (k : ProxyServiceKind) (op : ProxyOperation) :
    lookupAnn ((convertV1Beta1OwnerToV1Alpha1 owners anns).2) (permKey k op) =
      if (encodeNames owners k op).isEmpty then lookupAnn anns (permKey k op)
      else some (joinComma (encodeNames owners k op)) := by
  have hmem : (permKey k op, encodeNames owners k op) ∈
      ownerKindWrites owners ++ proxyWrites owners := by
    apply List.mem_append_right
    unfold proxyWrites
    rw [List.mem_map]
    refine ⟨(permKey k op, k, op), ?_, rfl⟩
    cases k <;> cases op <;> decide
  have hnd : ((ownerKindWrites owners ++ proxyWrites owners).map Prod.fst).Nodup := by
    rw [encode_writes_keys]
    exact encodeKeys_nodup
  exact lookupAnn_writeAnns_mem _ _ _ _ hnd hmem

/-- The three `(owner-kind annotation key, owner-kind literal)` pairs. -/
def ownerKindAnnPairs : List (GoStr × GoStr) :=
  [(ownerUsersAnn, userOwner), (ownerGroupsAnn, groupOwner),
   (ownerServiceAccountAnn, serviceAccountOwner)]

/-- The owner-kind annotation value after encoding: untouched when no tail
owner has the kind, the comma-joined collected names otherwise. -/
theorem lookup_encode_kind (owners : List OwnerSpecBeta) (anns : Annotations)
    (key ks : GoStr) (h : (key, ks) ∈ ownerKindAnnPairs) :
    lookupAnn ((convertV1Beta1OwnerToV1Alpha1 owners anns).2) key =
      if (tailKindNames owners ks).isEmpty then lookupAnn anns key
      else some (joinComma (tailKindNames owners ks)) := by
  have hmem : (key, tailKindNames owners ks) ∈
      ownerKindWrites owners ++ proxyWrites owners := by
    apply List.mem_append_left
    simp only [ownerKindAnnPairs, List.mem_cons, List.mem_singleton,
      Prod.mk.injEq, List.not_mem_nil, or_false] at h
    rcases h with ⟨rfl, rfl⟩ | ⟨rfl, rfl⟩ | ⟨rfl, rfl⟩ <;> simp [ownerKindWrites]
  have hnd : ((ownerKindWrites owners ++ proxyWrites owners).map Prod.fst).Nodup := by
    rw [encode_writes_keys]
    exact encodeKeys_nodup
  exact lookupAnn_writeAnns_mem _ _ _ _ hnd hmem

/-- Encoding leaves every annotation key outside the fifteen encoder keys
untouched. -/
theorem lookup_encode_other (owners : List OwnerSpecBeta) (anns : Annotations)
    (k : GoStr) (h : k ∉ encodeKeys) :
    lookupAnn ((convertV1Beta1OwnerToV1Alpha1 owners anns).2) k = lookupAnn anns k := by
  apply lookupAnn_writeAnns_not_mem
  intro w hw heq
  apply h
  rw [← encode_writes_keys owners, ← heq]
  exact List.mem_map.2 ⟨w, hw, rfl⟩

/-!
## Structure of the upgraded owner list
-/

theorem mem_ownersForKindAnn (anns : Annotations) (key kind : GoStr)
    (o : OwnerSpecBeta) :
    o ∈ ownersForKindAnn anns key kind ↔
      ∃ n ∈ annNames anns key, o = ⟨kind, n, getProxySettingsForOwner anns n⟩ := by
  unfold ownersForKindAnn annNames
  cases h : lookupAnn anns key with
  | none => simp
  | some v => simp [List.mem_map, eq_comm]

theorem mem_convertAlphaOwners (t : TenantAlpha) (o : OwnerSpecBeta) :
    o ∈ convertV1Alpha1OwnerToV1Beta1 t ↔
      o = ⟨t.spec.owner.kind, t.spec.owner.name,
            getProxySettingsForOwner t.meta.annotations t.spec.owner.name⟩ ∨
      ∃ p ∈ ownerKindAnnPairs, ∃ n ∈ annNames t.meta.annotations p.1,
        o = ⟨p.2, n, getProxySettingsForOwner t.meta.annotations n⟩ := by
  unfold convertV1Alpha1OwnerToV1Beta1
  simp only [List.mem_cons, List.mem_append, mem_ownersForKindAnn]
  constructor
  · rintro (rfl | (h | h) | h)
    · exact Or.inl rfl
    · refine Or.inr ⟨(ownerUsersAnn, userOwner), by simp [ownerKindAnnPairs], ?_⟩
      simpa using h
    · refine Or.inr ⟨(ownerGroupsAnn, groupOwner), by simp [ownerKindAnnPairs], ?_⟩
      simpa using h
    · refine Or.inr ⟨(ownerServiceAccountAnn, serviceAccountOwner),
        by simp [ownerKindAnnPairs], ?_⟩
      simpa using h
  · rintro (rfl | ⟨p, hp, h⟩)
    · exact Or.inl rfl
    · simp only [ownerKindAnnPairs, List.mem_cons, List.mem_singleton,
        List.not_mem_nil, or_false] at hp
      rcases hp with rfl | rfl | rfl
      · exact Or.inr (Or.inl (Or.inl (by simpa using h)))
      · exact Or.inr (Or.inl (Or.inr (by simpa using h)))
      · exact Or.inr (Or.inr (by simpa using h))

/-- Every entry of the upgraded owner list carries exactly the proxy settings
the decoder attributes to its name. -/
theorem proxyOps_by_name (t : TenantAlpha) (o : OwnerSpecBeta)
    (h : o ∈ convertV1Alpha1OwnerToV1Beta1 t) :
    o.proxyOperations = getProxySettingsForOwner t.meta.annotations o.name := by
  rcases (mem_convertAlphaOwners t o).1 h with rfl | ⟨p, hp, n, hn, rfl⟩ <;> rfl

/-- Every entry of the upgraded owner list is the primary owner or named by
an owner-kind annotation. -/
theorem name_of_mem_convert (t : TenantAlpha) (o : OwnerSpecBeta)
    (h : o ∈ convertV1Alpha1OwnerToV1Beta1 t) :
    o.name = t.spec.owner.name ∨
      ∃ p ∈ ownerKindAnnPairs, o.name ∈ annNames t.meta.annotations p.1 := by
  rcases (mem_convertAlphaOwners t o).1 h with rfl | ⟨p, hp, n, hn, rfl⟩
  · exact Or.inl rfl
  · exact Or.inr ⟨p, hp, hn⟩

/-!
## `ConvertTo` plumbing
-/

theorem convertToDirect_owners (t : TenantAlpha) :
    (convertToDirect t).owners = convertV1Alpha1OwnerToV1Beta1 t := rfl

theorem convertToExternalName_owners (t : TenantAlpha) (spec : TenantBetaSpec) :
    ((convertToExternalName t spec).1).owners = spec.owners := by
  unfold convertToExternalName
  split
  · rfl
  · split <;> rfl

theorem convertToNodePorts_owners (t : TenantAlpha) (spec : TenantBetaSpec) :
    ((convertToNodePorts t spec).1).owners = spec.owners := by
  unfold convertToNodePorts
  split
  · exact convertToExternalName_owners t spec
  · split
    · rfl
    · rw [convertToExternalName_owners]

theorem convertTo_owners (t : TenantAlpha) :
    (ConvertTo t).1.spec.owners = convertV1Alpha1OwnerToV1Beta1 t := by
  have h := convertToNodePorts_owners t (convertToDirect t)
  rw [convertToDirect_owners] at h
  unfold ConvertTo
  rcases heq : convertToNodePorts t (convertToDirect t) with ⟨spec, e⟩
  rw [heq] at h
  cases e <;> simpa using h

theorem convertToExternalName_error (t : TenantAlpha) (spec : TenantBetaSpec)
    (e : AnnParseError) (h : (convertToExternalName t spec).2 = some e) :
    e.key = enableExternalNameAnn := by
  unfold convertToExternalName at h
  split at h
  · exact absurd h (by simp)
  · split at h
    · have he := Option.some.inj h
      rw [← he]
    · exact absurd h (by simp)

theorem convertToNodePorts_error (t : TenantAlpha) (spec : TenantBetaSpec)
    (e : AnnParseError) (h : (convertToNodePorts t spec).2 = some e) :
    e.key = enableNodePortsAnn ∨ e.key = enableExternalNameAnn := by
  unfold convertToNodePorts at h
  split at h
  · exact Or.inr (convertToExternalName_error _ _ _ h)
  · split at h
    · have he := Option.some.inj h
      exact Or.inl (by rw [← he])
    · exact Or.inr (convertToExternalName_error _ _ _ h)

/-- Any `ConvertTo` error originates from one of the two boolean annotation
keys. -/
theorem convertTo_error_keys (t : TenantAlpha) (e : AnnParseError)
    (h : (ConvertTo t).2 = some e) :
    e.key = enableNodePortsAnn ∨ e.key = enableExternalNameAnn := by
  unfold ConvertTo at h
  rcases heq : convertToNodePorts t (convertToDirect t) with ⟨spec, e'⟩
  rw [heq] at h
  cases e' with
  | none => exact absurd h (by simp)
  | some e'' =>
    have : e'' = e := by simpa using h
    subst this
    exact convertToNodePorts_error t _ e'' (by rw [heq])

/-- Looking a key up after the purge fold: purged keys are gone, others keep
their value. -/
theorem lookup_foldl_deleteAnn (ks : List GoStr) (anns : Annotations) (k : GoStr) :
    lookupAnn (ks.foldl deleteAnn anns) k =
      if k ∈ ks then none else lookupAnn anns k := by
  induction ks generalizing anns with
  | nil => simp
  | cons k₀ rest ih =>
    rw [List.foldl_cons, ih]
    by_cases hk : k ∈ rest
    · simp [hk]
    · by_cases h0 : k = k₀
      · subst h0
        simp [hk, lookupAnn_deleteAnn_self]
      · simp [hk, h0, lookupAnn_deleteAnn_ne _ _ _ (Ne.symm h0)]

/-!
## Scope-annotation lookups through the downgrade pipeline
-/

theorem lookup_scopeAnnStep_ne (anns : Annotations) (rq : Option ResourceQuotaSpec)
    (k : GoStr) (h : resourceQuotaScopeAnn ≠ k) :
    lookupAnn (scopeAnnStep anns rq) k = lookupAnn anns k := by
  unfold scopeAnnStep
  split
  · exact lookupAnn_insertAnn_ne _ _ _ _ h
  · rfl

theorem lookup_pullPolicyAnnStep_ne (anns : Annotations) (ps : List GoStr)
    (k : GoStr) (h : podAllowedImagePullPolicyAnn ≠ k) :
    lookupAnn (pullPolicyAnnStep anns ps) k = lookupAnn anns k := by
  unfold pullPolicyAnnStep
  split
  · exact lookupAnn_insertAnn_ne _ _ _ _ h
  · rfl

theorem lookup_priorityClassAnnStep_ne (anns : Annotations)
    (pc : Option AllowedListSpec) (k : GoStr)
    (h1 : podPriorityAllowedAnn ≠ k) (h2 : podPriorityAllowedRegexAnn ≠ k) :
    lookupAnn (priorityClassAnnStep anns pc) k = lookupAnn anns k := by
  unfold priorityClassAnnStep
  split
  · split <;> dsimp only <;> split <;>
      simp [lookupAnn_insertAnn_ne _ _ _ _ h1, lookupAnn_insertAnn_ne _ _ _ _ h2]
  · rfl

/-- The scope annotation after the downgrade's base annotation pipeline:
written iff the resource-quota wrapper is present. -/
theorem lookup_convertFromBaseAnns_scope (src : TenantBeta) :
    lookupAnn (convertFromBaseAnns src) resourceQuotaScopeAnn =
      (match src.spec.resourceQuota with
       | some r => some r.scope
       | none => lookupAnn src.meta.annotations resourceQuotaScopeAnn) := by
  unfold convertFromBaseAnns
  rw [lookup_priorityClassAnnStep_ne _ _ _ (by decide) (by decide),
    lookup_pullPolicyAnnStep_ne _ _ _ (by decide)]
  cases h : src.spec.resourceQuota with
  | some r => simp [scopeAnnStep, lookupAnn_insertAnn_self]
  | none =>
    simp only [scopeAnnStep]
    exact lookup_encode_other _ _ _ (by decide)

/-- On any successful downgrade the scope annotation of the result agrees
with the base pipeline (the two boolean writes touch other keys). -/
theorem lookup_convertFrom_scope (src : TenantBeta) (a : TenantAlpha)
    (h : ConvertFrom src = some a) :
    lookupAnn a.meta.annotations resourceQuotaScopeAnn =
      lookupAnn (convertFromBaseAnns src) resourceQuotaScopeAnn := by
  unfold ConvertFrom at h
  split at h
  · split at h
    · split at h
      · have he := Option.some.inj h
        subst he
        dsimp only
        rw [lookupAnn_insertAnn_ne _ _ _ _ (by decide),
          lookupAnn_insertAnn_ne _ _ _ _ (by decide)]
      · exact absurd h (by simp)
    · have he := Option.some.inj h
      subst he
      rfl
  · have he := Option.some.inj h
    subst he
    rfl

/-- Shared minimal v1beta1 spec value: every optional field absent. -/
def emptyBetaSpec : TenantBetaSpec :=
  ⟨[], none, [], none, none, none, none, none, none, none, none, none, [], none, [], none⟩

/-- Shared minimal v1alpha1 spec value (primary owner `User`/`alice`). -/
def emptyAlphaSpec : TenantAlphaSpec :=
  ⟨⟨userOwner, "alice".toList⟩, none, [], none, none, none, none, none, none,
   [], [], [], [], none⟩

/-- C8 counterexample input: a v1beta1 tenant with no resource quota. -/
def tenantC8a : TenantBeta := ⟨⟨"oil".toList, []⟩, emptyBetaSpec, ⟨0, []⟩⟩

/-- C8 counterexample: the claim says the downgrade always writes the
resource-quota-scope annotation, including when the resourceQuota wrapper is
absent; on `tenantC8a` (no resourceQuota) the downgrade succeeds and leaves
the scope annotation absent. -/
theorem claim_C8_scope_cx :
    (ConvertFrom tenantC8a).map
      (fun a => lookupAnn a.meta.annotations resourceQuotaScopeAnn) = some none := by
  decide

/-- C8 (amended): the downgrade writes the resource-quota-scope annotation
with the literal scope value iff the resourceQuota wrapper is present; when
it is absent the scope annotation is whatever the source metadata carried. -/
theorem claim_C8_scope_emission (src : TenantBeta) (a : TenantAlpha)
    (h : ConvertFrom src = some a) :
    (∀ rq, src.spec.resourceQuota = some rq →
      lookupAnn a.meta.annotations resourceQuotaScopeAnn = some rq.scope) ∧
    (src.spec.resourceQuota = none →
      lookupAnn a.meta.annotations resourceQuotaScopeAnn =
        lookupAnn src.meta.annotations resourceQuotaScopeAnn) := by
  rw [lookup_convertFrom_scope src a h, lookup_convertFromBaseAnns_scope]
  constructor
  · intro rq hrq
    rw [hrq]
  · intro hrq
    rw [hrq]

/-- C8 witness input: a v1beta1 tenant with a Namespace-scoped resource quota. -/
def tenantC8b : TenantBeta :=
  ⟨⟨"oil".toList, []⟩,
   { emptyBetaSpec with resourceQuota := some ⟨resourceQuotaScopeNamespace, [()]⟩ },
   ⟨0, []⟩⟩

/-- C8 witness: on `tenantC8b` the downgrade succeeds and the scope
annotation holds the literal scope value. -/
theorem claim_C8_scope_witness :
    ∃ a, ConvertFrom tenantC8b = some a ∧
      lookupAnn a.meta.annotations resourceQuotaScopeAnn =
        some resourceQuotaScopeNamespace := by
  cases hsome : ConvertFrom tenantC8b with
  | none => exact absurd hsome (by decide)
  | some a =>
    refine ⟨a, rfl, ?_⟩
    exact (claim_C8_scope_emission tenantC8b a hsome).1
      ⟨resourceQuotaScopeNamespace, [()]⟩ rfl

/-!
## Claims C3, C5, C6, C7, C9, C10
-/

/-- C3 failing input: allowed services present, both optional booleans unset. -/
def tenantC3 : TenantBeta :=
  ⟨⟨"oil".toList, []⟩,
   { emptyBetaSpec with serviceOptions := some ⟨none, some ⟨none, none⟩⟩ },
   ⟨0, []⟩⟩

/-- C3: the claim (and the spec) require the downgrade to be total and
panic-free when the optional nodePort/externalName booleans are unset; the
source dereferences them unconditionally, so on `tenantC3` the downgrade
hits a nil-pointer panic (modelled as `none`) instead of returning a legacy
instance. -/
theorem claim_C3_downgrade_panics : ConvertFrom tenantC3 = none := by decide

/-- C5 counterexample input: a single owner (index 0) holding (nodes, list). -/
def ownersC5 : List OwnerSpecBeta :=
  [⟨userOwner, "bob".toList, [⟨.nodesProxy, [.listOperation]⟩]⟩]

/-- C5 counterexample: the claim says a permission key is emitted iff some
owner at index ≥ 1 holds the pair, with only those owners' names; on
`ownersC5` the tail is empty yet the key is emitted, carrying the index-0
owner's name. -/
theorem claim_C5_perm_cx :
    lookupAnn ((convertV1Beta1OwnerToV1Alpha1 ownersC5 []).2) enableNodeListingAnn =
      some "bob".toList ∧ ownersC5.drop 1 = [] := by
  decide

/-- C5 (amended): the downgrade emits each of the 12 permission keys iff some
owner at any index (index 0 included) holds the pair; the value is the comma
join of the collected names in owner-list order (one occurrence per holding
occurrence), and an absent pair leaves the key as it was in the incoming
metadata. -/
theorem claim_C5_perm_encoding (owners : List OwnerSpecBeta) (anns : Annotations)
    (k : ProxyServiceKind) (op : ProxyOperation) :
    lookupAnn ((convertV1Beta1OwnerToV1Alpha1 owners anns).2) (permKey k op) =
      (if (encodeNames owners k op).isEmpty then lookupAnn anns (permKey k op)
       else some (joinComma (encodeNames owners k op))) ∧
    ((encodeNames owners k op).isEmpty ↔ ∀ o ∈ owners, ¬ ownerHasPair o k op) := by
  refine ⟨lookup_encode_perm owners anns k op, ?_⟩
  rw [List.isEmpty_iff, List.eq_nil_iff_forall_not_mem]
  constructor
  · intro h o ho hp
    exact h o.name ((mem_encodeNames owners k op o.name).2 ⟨o, ho, rfl, hp⟩)
  · intro h n hn
    obtain ⟨o, ho, rfl, hp⟩ := (mem_encodeNames owners k op n).1 hn
    exact h o ho hp

/-- C6 counterexample input: the same owner name twice under one permission
key, the primary owner bearing that name. -/
def tenantC6 : TenantAlpha :=
  ⟨⟨"oil".toList, [(enableNodeListingAnn, "alice,alice".toList)]⟩,
   emptyAlphaSpec, ⟨0, []⟩⟩

/-- C6 counterexample: the claim says duplicate occurrences collapse to a
single operation entry (set semantics); on `tenantC6` the upgrade records the
list operation twice for the owner, a repeated operation. -/
theorem claim_C6_dup_cx :
    convertV1Alpha1OwnerToV1Beta1 tenantC6 =
      [⟨userOwner, "alice".toList,
        [⟨.nodesProxy, [.listOperation, .listOperation]⟩]⟩] ∧
    ¬ ([ProxyOperation.listOperation,
        ProxyOperation.listOperation] : List ProxyOperation).Nodup := by
  decide

theorem mem_getProxySettings (anns : Annotations) (n : GoStr) (s : ProxySettings)
    (h : s ∈ getProxySettingsForOwner anns n) :
    s.operations = decodedOps anns n s.kind := by
  unfold getProxySettingsForOwner at h
  rw [List.mem_filterMap] at h
  obtain ⟨k', _, hk'⟩ := h
  by_cases hemp : (decodedOps anns n k').isEmpty
  · rw [if_pos hemp] at hk'
    exact absurd hk' (by simp)
  · rw [if_neg hemp] at hk'
    have he := Option.some.inj hk'
    subst he
    rfl

/-- C6 (amended): decoding uses list-append semantics, not set semantics: in
every upgraded owner entry, each operation of a proxy-settings block occurs
once per occurrence of the owner's name in the comma list of the
corresponding permission annotation, duplicates preserved. -/
theorem claim_C6_dup_append (t : TenantAlpha) (o : OwnerSpecBeta)
    (s : ProxySettings) (ho : o ∈ convertV1Alpha1OwnerToV1Beta1 t)
    (hs : s ∈ o.proxyOperations) (op : ProxyOperation) :
    countOcc op s.operations =
      countOcc o.name (annNames t.meta.annotations (permKey s.kind op)) := by
  rw [proxyOps_by_name t o ho] at hs
  rw [mem_getProxySettings _ _ _ hs]
  exact countOcc_decodedOps _ _ _ _

/-- C6 witness: on `tenantC6` the duplicated name yields operation
multiplicity 2. -/
theorem claim_C6_dup_witness :
    countOcc ProxyOperation.listOperation
        ((⟨.nodesProxy, [.listOperation, .listOperation]⟩ : ProxySettings)).operations =
      countOcc "alice".toList (annNames tenantC6.meta.annotations
        (permKey ProxyServiceKind.nodesProxy ProxyOperation.listOperation)) ∧
    countOcc "alice".toList (annNames tenantC6.meta.annotations
        (permKey ProxyServiceKind.nodesProxy ProxyOperation.listOperation)) = 2 :=
  ⟨claim_C6_dup_append tenantC6
      ⟨userOwner, "alice".toList, [⟨.nodesProxy, [.listOperation, .listOperation]⟩]⟩
      ⟨.nodesProxy, [.listOperation, .listOperation]⟩
      (by decide) (by decide) ProxyOperation.listOperation,
    by decide⟩

/-- C7 counterexample input: the owner-group annotation present with the
empty string value. -/
def tenantC7 : TenantAlpha :=
  ⟨⟨"oil".toList, [(ownerGroupsAnn, [])]⟩, emptyAlphaSpec, ⟨0, []⟩⟩

/-- C7 counterexample: the claim says an empty-valued owner-kind annotation
behaves as absent and appends no owner; on `tenantC7` the upgrade appends a
second owner entry whose name is the empty string. -/
theorem claim_C7_empty_cx :
    convertV1Alpha1OwnerToV1Beta1 tenantC7 =
      [⟨userOwner, "alice".toList, []⟩, ⟨groupOwner, [], []⟩] ∧
    (convertV1Alpha1OwnerToV1Beta1 tenantC7).length ≠ 1 := by
  decide

/-- C7 (amended): an owner-kind annotation present with the empty string
value appends exactly one additional owner entry, whose name is the empty
string (the comma split of the empty string is one empty field). -/
theorem claim_C7_empty_value (t : TenantAlpha) (key kind : GoStr)
    (hk : (key, kind) ∈ ownerKindAnnPairs)
    (h : lookupAnn t.meta.annotations key = some []) :
    ownersForKindAnn t.meta.annotations key kind =
      [⟨kind, [], getProxySettingsForOwner t.meta.annotations []⟩] ∧
    ∃ o ∈ convertV1Alpha1OwnerToV1Beta1 t, o.kind = kind ∧ o.name = [] := by
  have h1 : ownersForKindAnn t.meta.annotations key kind =
      [⟨kind, [], getProxySettingsForOwner t.meta.annotations []⟩] := by
    unfold ownersForKindAnn
    rw [h]
    rfl
  refine ⟨h1, ⟨kind, [], getProxySettingsForOwner t.meta.annotations []⟩, ?_, rfl, rfl⟩
  apply (mem_convertAlphaOwners t _).2
  refine Or.inr ⟨(key, kind), hk, [], ?_, rfl⟩
  unfold annNames
  rw [h]
  simp [splitComma]

/-- C7 witness: the amended statement at `tenantC7` and its group key. -/
theorem claim_C7_empty_witness :
    ownersForKindAnn tenantC7.meta.annotations ownerGroupsAnn groupOwner =
      [⟨groupOwner, [], getProxySettingsForOwner tenantC7.meta.annotations []⟩] ∧
    ∃ o ∈ convertV1Alpha1OwnerToV1Beta1 tenantC7,
      o.kind = groupOwner ∧ o.name = [] :=
  claim_C7_empty_value tenantC7 ownerGroupsAnn groupOwner (by decide) (by decide)

/-- C9 witness input: a permission annotation naming `ghost`, attributed to
no owner. -/
def tenantC9 : TenantAlpha :=
  ⟨⟨"oil".toList, [(enableNodeListingAnn, "ghost".toList)]⟩, emptyAlphaSpec, ⟨0, []⟩⟩

/-- C9: an owner name appearing in permission annotation values that is
neither the primary owner's name nor listed in any owner-kind annotation
produces no owner entry in the upgraded owners list, and its contributions
are discarded without error (any upgrade error stems from one of the two
boolean annotation keys). -/
theorem claim_C9_unattributed_dropped (t : TenantAlpha) (n : GoStr)
    (hperm : ∃ k op, n ∈ annNames t.meta.annotations (permKey k op))
    (hprimary : n ≠ t.spec.owner.name)
    (hkinds : ∀ p ∈ ownerKindAnnPairs, n ∉ annNames t.meta.annotations p.1) :
    (∀ o ∈ (ConvertTo t).1.spec.owners, o.name ≠ n) ∧
    (∀ e, (ConvertTo t).2 = some e →
      e.key = enableNodePortsAnn ∨ e.key = enableExternalNameAnn) := by
  constructor
  · intro o ho heq
    rw [convertTo_owners] at ho
    rcases name_of_mem_convert t o ho with h | ⟨p, hp, h⟩
    · apply hprimary
      rw [← heq]
      exact h
    · apply hkinds p hp
      rw [← heq]
      exact h
  · exact fun e he => convertTo_error_keys t e he

/-- C9 witness: on `tenantC9` no upgraded owner is named `ghost`. -/
theorem claim_C9_witness :
    (∀ o ∈ (ConvertTo tenantC9).1.spec.owners, o.name ≠ "ghost".toList) ∧
    (∀ e, (ConvertTo tenantC9).2 = some e →
      e.key = enableNodePortsAnn ∨ e.key = enableExternalNameAnn) :=
  claim_C9_unattributed_dropped tenantC9 "ghost".toList
    ⟨ProxyServiceKind.nodesProxy, ProxyOperation.listOperation, by decide⟩
    (by decide) (by decide)

/-- C10 witness input: the primary owner and a group-annotation owner share
the name `alice`, which also holds a node-listing permission. -/
def tenantC10 : TenantAlpha :=
  ⟨⟨"oil".toList,
    [(ownerGroupsAnn, "alice".toList), (enableNodeListingAnn, "alice".toList)]⟩,
   emptyAlphaSpec, ⟨0, []⟩⟩

/-- C10: permission attribution on upgrade is by name only: every upgraded
owner entry carries exactly the settings the decoder attributes to its name,
so any two entries sharing a name (the primary included, kinds regardless)
carry identical decoded settings. -/
theorem claim_C10_by_name (t : TenantAlpha) (o1 o2 : OwnerSpecBeta)
    (h1 : o1 ∈ convertV1Alpha1OwnerToV1Beta1 t)
    (h2 : o2 ∈ convertV1Alpha1OwnerToV1Beta1 t) (hname : o1.name = o2.name) :
    o1.proxyOperations = getProxySettingsForOwner t.meta.annotations o1.name ∧
    o1.proxyOperations = o2.proxyOperations := by
  have e1 := proxyOps_by_name t o1 h1
  have e2 := proxyOps_by_name t o2 h2
  refine ⟨e1, ?_⟩
  rw [e1, e2, hname]

/-- C10 witness: on `tenantC10` the `User`-kinded primary entry and the
`Group`-kinded annotation entry, both named `alice`, carry equal settings. -/
theorem claim_C10_witness :
    (⟨userOwner, "alice".toList,
      getProxySettingsForOwner tenantC10.meta.annotations "alice".toList⟩
        : OwnerSpecBeta).proxyOperations =
    (⟨groupOwner, "alice".toList,
      getProxySettingsForOwner tenantC10.meta.annotations "alice".toList⟩
        : OwnerSpecBeta).proxyOperations :=
  (claim_C10_by_name tenantC10 _ _ (by decide) (by decide) rfl).2

/-!
## Claims C2 and C4
-/

/-- Equation for `ConvertTo` on a successful boolean step. -/
theorem convertTo_eq_of_ok (t : TenantAlpha) (spec : TenantBetaSpec)
    (h : convertToNodePorts t (convertToDirect t) = (spec, none)) :
    ConvertTo t = (⟨purgeMeta t.meta, spec,
      ⟨t.status.size, t.status.namespaces⟩⟩, none) := by
  unfold ConvertTo
  rw [h]

/-- Equation for `ConvertTo` on a failed boolean step. -/
theorem convertTo_eq_of_err (t : TenantAlpha) (spec : TenantBetaSpec)
    (e : AnnParseError)
    (h : convertToNodePorts t (convertToDirect t) = (spec, some e)) :
    ConvertTo t = (⟨t.meta, spec, ⟨0, []⟩⟩, some e) := by
  unfold ConvertTo
  rw [h]

/-- Lookup after the purge: consumed keys are gone, others keep their
value. -/
theorem lookupAnn_purgeMeta (m : ObjectMeta) (k : GoStr) :
    lookupAnn (purgeMeta m).annotations k =
      if k ∈ consumedKeys then none else lookupAnn m.annotations k := by
  simp only [purgeMeta]
  exact lookup_foldl_deleteAnn consumedKeys m.annotations k

/-- C2: annotation-cleanup atomicity of the upgrade: when `ConvertTo`
succeeds, none of the consumed annotation keys (the 12 permission keys, the
pull-policy key, the 2 priority-class keys, the 2 boolean keys, the scope
key and the 3 owner-kind keys) remains in the destination metadata; when it
fails, the destination metadata annotations are exactly the verbatim copy of
the source's, with no key removed. -/
theorem claim_C2_cleanup_atomic (t : TenantAlpha) :
    ((ConvertTo t).2 = none →
      ∀ k ∈ consumedKeys, lookupAnn (ConvertTo t).1.meta.annotations k = none) ∧
    (∀ e, (ConvertTo t).2 = some e →
      (ConvertTo t).1.meta.annotations = t.meta.annotations) := by
  rcases heq : convertToNodePorts t (convertToDirect t) with ⟨spec, e⟩
  cases e with
  | none =>
    rw [convertTo_eq_of_ok t spec heq]
    constructor
    · intro _ k hk
      dsimp only
      rw [lookupAnn_purgeMeta]
      simp [hk]
    · intro e he
      exact absurd he (by simp)
  | some e' =>
    rw [convertTo_eq_of_err t spec e' heq]
    constructor
    · intro h
      exact absurd h (by simp)
    · intro e _
      rfl

/-- C2 witness input: all consumed keys present with benign values. -/
def tenantC2 : TenantAlpha :=
  ⟨⟨"oil".toList,
    [(enableNodeListingAnn, "alice".toList), (ownerGroupsAnn, "team".toList),
     (resourceQuotaScopeAnn, "Tenant".toList), (enableNodePortsAnn, "true".toList)]⟩,
   emptyAlphaSpec, ⟨0, []⟩⟩

/-- C2 witness: on `tenantC2` the upgrade succeeds and the consumed keys are
purged from the destination metadata. -/
theorem claim_C2_witness :
    (ConvertTo tenantC2).2 = none ∧
    lookupAnn (ConvertTo tenantC2).1.meta.annotations enableNodeListingAnn = none :=
  ⟨by decide,
   (claim_C2_cleanup_atomic tenantC2).1 (by decide) enableNodeListingAnn (by decide)⟩

theorem updateAllowedServices_nodePort (so : Option ServiceOptions) (b : Bool) :
    ∃ so' als, updateAllowedServices so (fun a => { a with nodePort := some b }) =
        some so' ∧ so'.allowedServices = some als ∧ als.nodePort = some b := by
  unfold updateAllowedServices
  exact ⟨_, _, rfl, rfl, rfl⟩

theorem updateAllowedServices_keeps_nodePort (so₀ : ServiceOptions)
    (als₀ : AllowedServices) (b : Bool) (h2 : so₀.allowedServices = some als₀) :
    ∃ so' als', updateAllowedServices (some so₀)
        (fun a => { a with externalName := some b }) = some so' ∧
      so'.allowedServices = some als' ∧ als'.nodePort = als₀.nodePort := by
  unfold updateAllowedServices
  refine ⟨_, _, rfl, rfl, ?_⟩
  simp [h2]

theorem convertToExternalName_eq_none (t : TenantAlpha) (spec : TenantBetaSpec)
    (h : lookupAnn t.meta.annotations enableExternalNameAnn = none) :
    convertToExternalName t spec = (spec, none) := by
  unfold convertToExternalName
  rw [h]

theorem convertToExternalName_eq_some (t : TenantAlpha) (spec : TenantBetaSpec)
    (s : GoStr) (b : Bool)
    (hs : lookupAnn t.meta.annotations enableExternalNameAnn = some s)
    (hb : parseBool s = some b) :
    convertToExternalName t spec =
      ({ spec with serviceOptions :=
          (updateAllowedServices spec.serviceOptions
            (fun als => { als with externalName := some b })) }, none) := by
  unfold convertToExternalName
  rw [hs]
  dsimp only
  rw [hb]

theorem convertToNodePorts_eq_some (t : TenantAlpha) (spec : TenantBetaSpec)
    (v : GoStr) (b : Bool)
    (hv : lookupAnn t.meta.annotations enableNodePortsAnn = some v)
    (hb : parseBool v = some b) :
    convertToNodePorts t spec =
      convertToExternalName t { spec with serviceOptions :=
        (updateAllowedServices spec.serviceOptions
          (fun als => { als with nodePort := some b })) } := by
  unfold convertToNodePorts
  rw [hv]
  dsimp only
  rw [hb]

theorem convertToNodePorts_true (t : TenantAlpha) (v : GoStr)
    (hv : lookupAnn t.meta.annotations enableNodePortsAnn = some v)
    (hpv : parseBool v = some true)
    (hext : ∀ s, lookupAnn t.meta.annotations enableExternalNameAnn = some s →
      parseBool s ≠ none) :
    ∃ spec, convertToNodePorts t (convertToDirect t) = (spec, none) ∧
      ∃ so als, spec.serviceOptions = some so ∧
        so.allowedServices = some als ∧ als.nodePort = some true := by
  obtain ⟨so₀, als₀, hso₁, hals₀, hnp₀⟩ :=
    updateAllowedServices_nodePort (convertToDirect t).serviceOptions true
  have hstep := convertToNodePorts_eq_some t (convertToDirect t) v true hv hpv
  set spec₁ : TenantBetaSpec := { convertToDirect t with serviceOptions :=
    (updateAllowedServices (convertToDirect t).serviceOptions
      (fun als => { als with nodePort := some true })) } with hspec₁
  have hso₁' : spec₁.serviceOptions = some so₀ := hso₁
  cases hel : lookupAnn t.meta.annotations enableExternalNameAnn with
  | none =>
    refine ⟨spec₁, ?_, so₀, als₀, hso₁', hals₀, hnp₀⟩
    rw [hstep, convertToExternalName_eq_none t spec₁ hel]
  | some s =>
    cases hps : parseBool s with
    | none => exact absurd hps (hext s hel)
    | some b =>
      obtain ⟨so', als', hso', hals', hnp'⟩ :=
        updateAllowedServices_keeps_nodePort so₀ als₀ b hals₀
      refine ⟨{ spec₁ with serviceOptions :=
          (updateAllowedServices spec₁.serviceOptions
            (fun als => { als with externalName := some b })) }, ?_, so', als', ?_,
        hals', by rw [hnp', hnp₀]⟩
      · rw [hstep, convertToExternalName_eq_some t spec₁ s b hel hps]
      · show updateAllowedServices spec₁.serviceOptions
          (fun als => { als with externalName := some b }) = some so'
        rw [hso₁']
        exact hso'

/-- C4: boolean strictness with contextual error: an upgrade whose
enable-node-ports annotation is `maybe` fails with a parse error naming that
key and the tenant name (and the raw value); with `true` or `1` (and no
failing external-name annotation) the upgrade succeeds and sets the nodePort
field of `serviceOptions.allowedServices` to `true`. -/
theorem claim_C4_bool_strict (t : TenantAlpha) :
    (lookupAnn t.meta.annotations enableNodePortsAnn = some "maybe".toList →
      ∃ e, (ConvertTo t).2 = some e ∧ e.key = enableNodePortsAnn ∧
        e.tenantName = t.meta.name ∧ e.rawValue = "maybe".toList) ∧
    ((lookupAnn t.meta.annotations enableNodePortsAnn = some "true".toList ∨
      lookupAnn t.meta.annotations enableNodePortsAnn = some "1".toList) →
     (∀ s, lookupAnn t.meta.annotations enableExternalNameAnn = some s →
        parseBool s ≠ none) →
      (ConvertTo t).2 = none ∧
      ∃ so als, (ConvertTo t).1.spec.serviceOptions = some so ∧
        so.allowedServices = some als ∧ als.nodePort = some true) := by
  constructor
  · intro h
    have hred : convertToNodePorts t (convertToDirect t) =
        (convertToDirect t, some ⟨enableNodePortsAnn, t.meta.name, "maybe".toList⟩) := by
      unfold convertToNodePorts
      rw [h]
      rfl
    rw [convertTo_eq_of_err t _ _ hred]
    exact ⟨_, rfl, rfl, rfl, rfl⟩
  · intro hnp hext
    have hparse : ∃ v, lookupAnn t.meta.annotations enableNodePortsAnn = some v ∧
        parseBool v = some true := by
      rcases hnp with h | h
      · exact ⟨_, h, by decide⟩
      · exact ⟨_, h, by decide⟩
    obtain ⟨v, hv, hpv⟩ := hparse
    obtain ⟨spec, hconv, so, als, hso, hals, hnp'⟩ :=
      convertToNodePorts_true t v hv hpv hext
    rw [convertTo_eq_of_ok t spec hconv]
    exact ⟨rfl, so, als, hso, hals, hnp'⟩

/-- C4 witness input (failure side): enable-node-ports set to `maybe`. -/
def tenantC4a : TenantAlpha :=
  ⟨⟨"oil".toList, [(enableNodePortsAnn, "maybe".toList)]⟩, emptyAlphaSpec, ⟨0, []⟩⟩

/-- C4 witness input (success side): enable-node-ports set to `1`. -/
def tenantC4b : TenantAlpha :=
  ⟨⟨"oil".toList, [(enableNodePortsAnn, "1".toList)]⟩, emptyAlphaSpec, ⟨0, []⟩⟩

/-- C4 witness: on `tenantC4a` the upgrade fails naming the key and tenant;
on `tenantC4b` it succeeds with nodePort set to `true`. -/
theorem claim_C4_witness :
    (∃ e, (ConvertTo tenantC4a).2 = some e ∧ e.key = enableNodePortsAnn ∧
      e.tenantName = tenantC4a.meta.name ∧ e.rawValue = "maybe".toList) ∧
    ((ConvertTo tenantC4b).2 = none ∧
      ∃ so als, (ConvertTo tenantC4b).1.spec.serviceOptions = some so ∧
        so.allowedServices = some als ∧ als.nodePort = some true) :=
  ⟨(claim_C4_bool_strict tenantC4a).1 (by decide),
   (claim_C4_bool_strict tenantC4b).2 (Or.inr (by decide))
     (fun s hs => by
       have hnone : lookupAnn tenantC4b.meta.annotations enableExternalNameAnn =
           none := by decide
       rw [hnone] at hs
       cases hs)⟩

/-!
## Claim C1: the owner/permission round trip
-/

/-- Splitting an encoded permission annotation recovers exactly the collected
names, when every owner name is comma-free. -/
theorem annNames_encode_perm (owners : List OwnerSpecBeta)
    (hfree : ∀ o ∈ owners, ',' ∉ o.name) (k : ProxyServiceKind)
    (op : ProxyOperation) :
    annNames ((convertV1Beta1OwnerToV1Alpha1 owners []).2) (permKey k op) =
      encodeNames owners k op := by
  unfold annNames
  rw [lookup_encode_perm]
  by_cases he : (encodeNames owners k op).isEmpty
  · rw [if_pos he]
    simp only [lookupAnn]
    exact (List.isEmpty_iff.1 he).symm
  · rw [if_neg he]
    apply splitComma_joinComma
    · intro h
      exact he (by rw [h]; rfl)
    · intro x hx
      obtain ⟨o, ho, rfl⟩ := mem_encodeNames_name owners k op x hx
      exact hfree o ho

/-- Splitting an encoded owner-kind annotation recovers exactly the collected
tail names, when every owner name is comma-free. -/
theorem annNames_encode_kind (owners : List OwnerSpecBeta)
    (hfree : ∀ o ∈ owners, ',' ∉ o.name) (key ks : GoStr)
    (hk : (key, ks) ∈ ownerKindAnnPairs) :
    annNames ((convertV1Beta1OwnerToV1Alpha1 owners []).2) key =
      tailKindNames owners ks := by
  unfold annNames
  rw [lookup_encode_kind owners [] key ks hk]
  by_cases he : (tailKindNames owners ks).isEmpty
  · rw [if_pos he]
    simp only [lookupAnn]
    exact (List.isEmpty_iff.1 he).symm
  · rw [if_neg he]
    apply splitComma_joinComma
    · intro h
      exact he (by rw [h]; rfl)
    · intro x hx
      obtain ⟨o, ho, _, rfl⟩ := (mem_tailKindNames owners ks x).1 hx
      exact hfree o (List.mem_of_mem_drop ho)

/-- C1 counterexample source: as stated the claim only requires
`owners[1:]` to have pairwise-distinct names; here the primary owner at
index 0 shares the name `alice` with the tail owner. -/
def ownersC1 : List OwnerSpecBeta :=
  [⟨userOwner, "alice".toList, [⟨.nodesProxy, [.listOperation]⟩]⟩,
   ⟨groupOwner, "alice".toList, []⟩]

/-- C1 counterexample: the alpha tenant produced by downgrading `ownersC1`
into empty metadata. -/
def tenantC1 : TenantAlpha :=
  ⟨⟨"oil".toList, (convertV1Beta1OwnerToV1Alpha1 ownersC1 []).2⟩,
   { emptyAlphaSpec with owner := (convertV1Beta1OwnerToV1Alpha1 ownersC1 []).1 },
   ⟨0, []⟩⟩

/-- C1 counterexample: `ownersC1.drop 1` has pairwise-distinct names and its
only owner (`Group`/`alice`) holds no permission pair, yet every re-upgraded
entry named `alice` holds `(nodes, list)` — the primary owner's permission
leaks into the tail owner of the same name, so the per-owner set equality the
claim states fails. -/
theorem claim_C1_round_trip_cx :
    ((ownersC1.drop 1).map OwnerSpecBeta.name).Nodup ∧
    ownersC1.drop 1 = [⟨groupOwner, "alice".toList, []⟩] ∧
    ¬ ownerHasPair ⟨groupOwner, "alice".toList, []⟩
        ProxyServiceKind.nodesProxy ProxyOperation.listOperation ∧
    (∀ o' ∈ convertV1Alpha1OwnerToV1Beta1 tenantC1, o'.name = "alice".toList →
      ownerHasPair o' ProxyServiceKind.nodesProxy ProxyOperation.listOperation) := by
  decide

/-- C1 (amended): for every new-schema owner list whose owners at ALL
indices (index 0 included) have pairwise-distinct, comma-free names and
whose tail owners carry one of the three owner kinds, decoding (via the
upgrade owner/permission reconstruction) the annotations produced by
encoding (via the downgrade direction, into empty metadata) yields, for each
tail owner, an entry with its name, and every reconstructed entry with that
name carries exactly the same set of `(serviceKind, operation)` pairs the
owner started with. -/
theorem claim_C1_perm_round_trip (owners : List OwnerSpecBeta) (t : TenantAlpha)
    (hmeta : t.meta.annotations = (convertV1Beta1OwnerToV1Alpha1 owners []).2)
    (howner : t.spec.owner = (convertV1Beta1OwnerToV1Alpha1 owners []).1)
    (hnodup : (owners.map OwnerSpecBeta.name).Nodup)
    (hfree : ∀ o ∈ owners, ',' ∉ o.name)
    (hkinds : ∀ o ∈ owners.drop 1,
      o.kind = userOwner ∨ o.kind = groupOwner ∨ o.kind = serviceAccountOwner) :
    ∀ o ∈ owners.drop 1,
      (∃ o' ∈ convertV1Alpha1OwnerToV1Beta1 t, o'.name = o.name) ∧
      (∀ o' ∈ convertV1Alpha1OwnerToV1Beta1 t, o'.name = o.name →
        ∀ k op, (ownerHasPair o' k op ↔ ownerHasPair o k op)) := by
  intro o ho
  have huniq : ∀ o'' ∈ owners, o''.name = o.name → o'' = o := by
    intro o'' h'' heq
    have homem : o ∈ owners := by
      cases owners with
      | nil => cases ho
      | cons a l => exact List.mem_cons_of_mem a (by simpa using ho)
    exact List.inj_on_of_nodup_map hnodup h'' homem heq
  obtain ⟨o₀, rest, rfl⟩ : ∃ o₀ rest, owners = o₀ :: rest := by
    cases owners with
    | nil => cases ho
    | cons a l => exact ⟨a, l, rfl⟩
  have horest : o ∈ rest := by simpa using ho
  have hname_ne : o.name ≠ o₀.name := by
    have hnodup' := hnodup
    rw [List.map_cons, List.nodup_cons] at hnodup'
    intro h
    exact hnodup'.1 (h ▸ List.mem_map.2 ⟨o, horest, rfl⟩)
  have hdec : ∀ n k op, op ∈ decodedOps t.meta.annotations n k ↔
      n ∈ encodeNames (o₀ :: rest) k op := by
    intro n k op
    rw [mem_decodedOps, hmeta, annNames_encode_perm _ hfree]
  have henc : ∀ k op, (o.name ∈ encodeNames (o₀ :: rest) k op ↔
      ownerHasPair o k op) := by
    intro k op
    rw [mem_encodeNames]
    constructor
    · rintro ⟨o'', h'', heq, hp⟩
      rwa [huniq o'' h'' heq] at hp
    · intro hp
      exact ⟨o, List.mem_cons_of_mem o₀ horest, rfl, hp⟩
  have hsettings : ∀ o' ∈ convertV1Alpha1OwnerToV1Beta1 t, o'.name = o.name →
      ∀ k op, (ownerHasPair o' k op ↔
        op ∈ decodedOps t.meta.annotations o.name k) := by
    intro o' ho' heq k op
    rcases (mem_convertAlphaOwners t o').1 ho' with rfl | ⟨p, hp, n, hn, rfl⟩
    · exfalso
      apply hname_ne
      rw [← heq]
      show t.spec.owner.name = o₀.name
      rw [howner]
      rfl
    · have heq' : n = o.name := heq
      subst heq'
      exact ownerHasPair_getProxySettings t.meta.annotations p.2 o.name k op
  constructor
  · have hkind := hkinds o ho
    have hload : ∃ key, (key, o.kind) ∈ ownerKindAnnPairs := by
      rcases hkind with h | h | h
      · exact ⟨ownerUsersAnn, by rw [h]; simp [ownerKindAnnPairs]⟩
      · exact ⟨ownerGroupsAnn, by rw [h]; simp [ownerKindAnnPairs]⟩
      · exact ⟨ownerServiceAccountAnn, by rw [h]; simp [ownerKindAnnPairs]⟩
    obtain ⟨key, hkey⟩ := hload
    refine ⟨⟨o.kind, o.name, getProxySettingsForOwner t.meta.annotations o.name⟩,
      ?_, rfl⟩
    apply (mem_convertAlphaOwners t _).2
    refine Or.inr ⟨(key, o.kind), hkey, o.name, ?_, rfl⟩
    rw [hmeta, annNames_encode_kind _ hfree key o.kind hkey]
    exact (mem_tailKindNames _ _ _).2 ⟨o, ho, rfl, rfl⟩
  · intro o' ho' heq k op
    rw [hsettings o' ho' heq k op, hdec o.name k op, henc k op]

/-- C1 witness source: two owners with distinct comma-free names and
distinct permission pairs. -/
def ownersC1w : List OwnerSpecBeta :=
  [⟨userOwner, "alice".toList, [⟨.nodesProxy, [.listOperation]⟩]⟩,
   ⟨groupOwner, "bob".toList, [⟨.nodesProxy, [.updateOperation]⟩]⟩]

/-- C1 witness: the alpha tenant produced by downgrading `ownersC1w`. -/
def tenantC1w : TenantAlpha :=
  ⟨⟨"oil".toList, (convertV1Beta1OwnerToV1Alpha1 ownersC1w []).2⟩,
   { emptyAlphaSpec with owner := (convertV1Beta1OwnerToV1Alpha1 ownersC1w []).1 },
   ⟨0, []⟩⟩

/-- C1 witness: the amended round trip at `ownersC1w` and its tail owner
`bob`. -/
theorem claim_C1_round_trip_witness :
    (∃ o' ∈ convertV1Alpha1OwnerToV1Beta1 tenantC1w, o'.name = "bob".toList) ∧
    (∀ o' ∈ convertV1Alpha1OwnerToV1Beta1 tenantC1w, o'.name = "bob".toList →
      ∀ k op, (ownerHasPair o' k op ↔
        ownerHasPair ⟨groupOwner, "bob".toList,
          [⟨.nodesProxy, [.updateOperation]⟩]⟩ k op)) :=
  claim_C1_perm_round_trip ownersC1w tenantC1w rfl rfl (by decide) (by decide)
    (by decide)
    ⟨groupOwner, "bob".toList, [⟨.nodesProxy, [.updateOperation]⟩]⟩ (by decide)
